import Mathlib

/-!
Verification development for the SlotPrioritizationSimulator repository
(source file src/src/App.jsx).

Modelling conventions for the shallow embedding:
* JS numbers are modelled as exact rationals; the floating-point rounding of
  individual arithmetic operations is idealised away.
* Math.exp is abstracted as a context parameter expTerm, whose value at a
  capacity b stands for exp (-1.2 * (b - 1)).  All general theorems quantify
  over this parameter; concrete evaluations instantiate it with rational
  stand-ins for the actual exponential values.
* The JS value Infinity (returned by the score function for capacity 0) is
  modelled as the top element of WithTop ℚ.
* The JS slot identifier string "h-m" is modelled as its pair of numeric
  components, which is what the code recovers by split/parseInt.
* Math.random-based sampling is modelled by an explicit natural-number draw,
  reduced modulo the sampled range, so that a draw below the range size picks
  exactly that index.
-/

namespace SlotSim

/-- A time slot, identified by its two numeric components (hour, minute).
The JS code generates ids of the form "hour-minute". -/
structure Slot where
  hour : Nat
  minute : Nat
deriving DecidableEq, Repr

/-- generateTimeSlots (App.jsx lines 5-26): hours 10,11,12, minutes
0,10,20,30,40,50, in time order; 18 slots in total. -/
def timeSlots : List Slot :=
  (List.range 3).flatMap fun h => (List.range 6).map fun m => ⟨10 + h, 10 * m⟩

/-- A healthcare provider: identifier, display name and license count. -/
structure Provider where
  id : Nat
  name : String
  licenses : Nat
deriving DecidableEq, Repr

/-- initialProviders (App.jsx lines 29-37). -/
def initialProviders : List Provider :=
  [⟨1, "NP Smith", 3⟩, ⟨2, "NP Johnson", 2⟩, ⟨3, "NP Williams", 5⟩,
   ⟨4, "NP Brown", 1⟩, ⟨5, "NP Davis", 4⟩, ⟨6, "NP Anderson", 10⟩,
   ⟨7, "NP Taylor", 15⟩]

/-- The commitment store: selectedSlots[providerId][slotId] truthiness.
The JS object is a sparse boolean relation; it is modelled by its membership
function. -/
def Store := Nat → Slot → Bool

/-- The empty store (the initial value {} of selectedSlots). -/
def emptyStore : Store := fun _ _ => false

/-- Insertion step of a stable sort. -/
def insertBy (le : α → α → Bool) (a : α) : List α → List α
  | [] => [a]
  | b :: bs => if le a b then a :: b :: bs else b :: insertBy le a bs

/-- Stable sort, modelling JS Array.prototype.sort with a total comparator. -/
def sortBy (le : α → α → Bool) (l : List α) : List α :=
  l.foldr (insertBy le) []

/-- Static context of the component: the provider list (state initialised to
initialProviders and never mutated), the two weights, and the abstracted
exponential term. -/
structure Ctx where
  providers : List Provider
  weight1 : ℚ
  weight2 : ℚ
  expTerm : Nat → ℚ

/-- sortedProviders (App.jsx lines 53-55): providers sorted by license count
ascending. -/
def sortedProviders (ctx : Ctx) : List Provider :=
  sortBy (fun a b => decide (a.licenses ≤ b.licenses)) ctx.providers

/-- getTotalSelectedSlots (App.jsx lines 73-75): the number of slots committed
to a provider. -/
def selectedCount (store : Store) (providerId : Nat) : Nat :=
  (timeSlots.filter (fun s => store providerId s)).length

/-- calculateAvailabilityScore (App.jsx lines 91-99):
score = weight1 * (slotsRemaining / totalSlots) + weight2 * expTerm licenses,
with Infinity (here ⊤) for licenses = 0. -/
def calculateAvailabilityScore (ctx : Ctx) (store : Store)
    (providerId licenses : Nat) : WithTop ℚ :=
  if licenses = 0 then ⊤
  else
    ((ctx.weight1 * (((timeSlots.length : ℚ) - (selectedCount store providerId : ℚ))
        / (timeSlots.length : ℚ))
      + ctx.weight2 * ctx.expTerm licenses : ℚ) : WithTop ℚ)

/-- Truncation to two decimal places, Math.floor (num * 100) / 100
(App.jsx lines 78-80 and 132); Infinity is fixed. -/
def truncTop (x : WithTop ℚ) : WithTop ℚ :=
  x.map fun q => ((⌊q * 100⌋ : ℚ) / 100)

/-- The candidate set of a slot (App.jsx lines 122-124): providers that do not
already hold this slot, in sortedProviders order. -/
def availableProviders (ctx : Ctx) (slot : Slot) (store : Store) : List Provider :=
  (sortedProviders ctx).filter fun p => !(store p.id slot)

/-- The truncated availability score of a provider, the roundedScore of
App.jsx line 132. -/
def truncScore (ctx : Ctx) (store : Store) (p : Provider) : WithTop ℚ :=
  truncTop (calculateAvailabilityScore ctx store p.id p.licenses)

/-- The (id, truncated score) list of the candidates (App.jsx lines 130-138). -/
def scoredCandidates (ctx : Ctx) (slot : Slot) (store : Store) :
    List (Nat × WithTop ℚ) :=
  (availableProviders ctx slot store).map fun p => (p.id, truncScore ctx store p)

/-- Math.max over the truncated candidate scores (App.jsx line 140); junk value
on the empty list, which the resolver guards against. -/
def maxTrunc (ctx : Ctx) (slot : Slot) (store : Store) : WithTop ℚ :=
  match scoredCandidates ctx slot store with
  | [] => ⊤
  | s :: ss => ss.foldl (fun m q => max m q.2) s.2

/-- The candidates tied at the maximal truncated score (App.jsx line 141). -/
def tiedCandidates (ctx : Ctx) (slot : Slot) (store : Store) :
    List (Nat × WithTop ℚ) :=
  (scoredCandidates ctx slot store).filter fun q =>
    decide (q.2 = maxTrunc ctx slot store)

/-- The tie-break hash (App.jsx line 150): the sum of the numeric components of
the slot identifier. -/
def slotHash (s : Slot) : Nat := s.hour + s.minute

/-- Ascending sort of the tied candidates by provider id (App.jsx line 149). -/
def sortById (l : List (Nat × WithTop ℚ)) : List (Nat × WithTop ℚ) :=
  sortBy (fun a b => decide (a.1 ≤ b.1)) l

/-- getMaxScoreProviderForSlot (App.jsx lines 120-153), the assignment
resolver.  Returns none when no candidate remains; with a unique maximal
candidate returns it; on a tie indexes the id-sorted tied list at
slotHash mod its length. -/
def resolve (ctx : Ctx) (slot : Slot) (store : Store) : Option Nat :=
  if (availableProviders ctx slot store).isEmpty then none
  else
    match tiedCandidates ctx slot store with
    | [] => none
    | [t] => some t.1
    | t :: t' :: ts =>
      ((sortById (t :: t' :: ts)).get?
        (slotHash slot % (sortById (t :: t' :: ts)).length)).map (·.1)

/-- Rational stand-in for exp (-1.2 * (b - 1)) at the capacities of the fixed
provider list, used for concrete evaluations (exp 0 = 1 exactly; the others
are close rational approximations, and the concrete theorems only depend on
their coarse size). -/
def sampleExpTerm : Nat → ℚ
  | 1 => 1
  | 2 => 3012 / 10000
  | 3 => 907 / 10000
  | 4 => 273 / 10000
  | 5 => 823 / 100000
  | 10 => 1 / 50000
  | 15 => 1 / 20000000
  | _ => 0

/-- The component context at its initial weights 0.8 / 0.2, with the sample
exponential values. -/
def sampleCtx : Ctx := ⟨initialProviders, 4/5, 1/5, sampleExpTerm⟩

/-- A resolver output entry: a slot, its resolved provider, and the slot's
time index. -/
structure Assignment where
  slotId : Slot
  providerId : Nat
  timeIndex : Nat
deriving DecidableEq, Repr

/-- Math.ceil (n * q) as a natural number, for the non-negative band
fractions. -/
def ceilFrac (n : Nat) (q : ℚ) : Nat := (⌈(n : ℚ) * q⌉).toNat

/-- getHighlightedSlots / getCurrentHighlighted (App.jsx lines 157-197 and
256-269): resolve every slot against the given store, keep the slots that
still have an eligible provider, tag each with its time index, and sort by
time index (the JS code computes the index by findIndex over the id-distinct
slot list, which is the enumeration index). -/
def resolveAll (ctx : Ctx) (store : Store) : List Assignment :=
  sortBy (fun a b => decide (a.timeIndex ≤ b.timeIndex))
    (timeSlots.enum.filterMap fun p =>
      (resolve ctx p.2 store).map fun pid => ⟨p.2, pid, p.1⟩)

/-- selectRandomSlotFromFirstPercent (App.jsx lines 293-307).  The uniform
draw Math.floor (Math.random () * length) is modelled by an arbitrary natural
draw reduced modulo the pool length.  The sampled entry is kept only if it
still resolves identically against verifyStore, which at the call sites is
the component state selectedSlots. -/
def selectRandomSlotFromFirstPercent (ctx : Ctx) (verifyStore : Store)
    (hs : List Assignment) (percent : ℚ) (r : Nat) : Option Assignment :=
  if hs.isEmpty then none
  else
    let pool := hs.take (max 1 (ceilFrac hs.length percent))
    if pool.isEmpty then none
    else
      match pool.get? (r % pool.length) with
      | none => none
      | some a =>
        if resolve ctx a.slotId verifyStore = some a.providerId then some a
        else none

/-- selectRandomSlotFromRange (App.jsx lines 272-290): samples from the slice
with index interval [ceil (len * startPercent), ceil (len * endPercent)) of
the list, with the same verification against verifyStore. -/
def selectRandomSlotFromRange (ctx : Ctx) (verifyStore : Store)
    (hs : List Assignment) (startPercent endPercent : ℚ) (r : Nat) :
    Option Assignment :=
  if hs.isEmpty then none
  else
    let s := ceilFrac hs.length startPercent
    let e := ceilFrac hs.length endPercent
    if e ≤ s then none
    else
      let band := (hs.drop s).take (e - s)
      if band.isEmpty then none
      else
        match band.get? (r % band.length) with
        | none => none
        | some a =>
          if resolve ctx a.slotId verifyStore = some a.providerId then some a
          else none

/-- Setting workingState[providerId][slotId] = true. -/
def commitPair (store : Store) (pid : Nat) (slot : Slot) : Store :=
  fun p s => if p = pid ∧ s = slot then true else store p s

/-- Stage 1 of runSimulationIteration (App.jsx lines 347-360): abort when no
slot is eligible, otherwise sample from the first 20% (at least one element)
of the current resolver output, verifying against the current store. -/
def stage1 (ctx : Ctx) (store : Store) (r : Nat) : Option Assignment :=
  let h0 := resolveAll ctx store
  if h0.isEmpty then none
  else selectRandomSlotFromFirstPercent ctx store h0 (1/5) r

/-- Stage 2 of runSimulationIteration (App.jsx lines 362-373): recompute the
resolver output against the working state holding stage 1's commitment, then
sample its 20%-50% band.  The sampled entry is verified against the
pre-iteration store, because getMaxScoreProviderForSlot reads the component
state selectedSlots. -/
def stage2 (ctx : Ctx) (store : Store) (a1 : Assignment) (r : Nat) :
    Option Assignment :=
  let working := commitPair store a1.providerId a1.slotId
  let h1 := resolveAll ctx working
  if h1.isEmpty then none
  else selectRandomSlotFromRange ctx store h1 (1/5) (1/2) r

/-- Stage 3 of runSimulationIteration (App.jsx lines 381-387), reached only
when stage 2 selected: sample the 50%-70% band of the resolver output for the
working state holding stages 1 and 2, again verifying against the
pre-iteration store. -/
def stage3 (ctx : Ctx) (store : Store) (a1 a2 : Assignment) (r : Nat) :
    Option Assignment :=
  let working :=
    commitPair (commitPair store a1.providerId a1.slotId) a2.providerId a2.slotId
  let h2 := resolveAll ctx working
  if h2.isEmpty then none
  else selectRandomSlotFromRange ctx store h2 (1/2) (7/10) r

/-- The selection phase of runSimulationIteration (App.jsx lines 336-403):
the triple (slot1, slot2, slot3) of one iteration, given the three random
draws.  When stage 1 yields nothing the iteration aborts; slot3 is computed
only when slot2 was selected (highlightedAfter2 is empty otherwise). -/
def runSimulationIteration (ctx : Ctx) (store : Store) (r1 r2 r3 : Nat) :
    Option Assignment × Option Assignment × Option Assignment :=
  match stage1 ctx store r1 with
  | none => (none, none, none)
  | some a1 =>
    match stage2 ctx store a1 r2 with
    | none => (some a1, none, none)
    | some a2 => (some a1, some a2, stage3 ctx store a1 a2 r3)

/-- Rendering of the claim that stage 2 verifies its sampled entry against
the working state: identical to stage2 except that the eligibility check of
the sampled entry is computed against the working state that already includes
stage 1's hypothetical commitment.  This definition follows the claim's
wording and exists only to be compared with the code's stage2. -/
def stage2CheckedOnWorking (ctx : Ctx) (store : Store) (a1 : Assignment)
    (r : Nat) : Option Assignment :=
  let working := commitPair store a1.providerId a1.slotId
  let h1 := resolveAll ctx working
  if h1.isEmpty then none
  else selectRandomSlotFromRange ctx working h1 (1/5) (1/2) r

/-- Rendering of the claim for stage 3: verification against the working
state including stages 1 and 2. -/
def stage3CheckedOnWorking (ctx : Ctx) (store : Store) (a1 a2 : Assignment)
    (r : Nat) : Option Assignment :=
  let working :=
    commitPair (commitPair store a1.providerId a1.slotId) a2.providerId a2.slotId
  let h2 := resolveAll ctx working
  if h2.isEmpty then none
  else selectRandomSlotFromRange ctx working h2 (1/2) (7/10) r

/-- The iteration as the claim describes it: every stage's resolution,
including the eligibility check of its sampled entry, computed against the
accumulated working state. -/
def runIterationCheckedOnWorking (ctx : Ctx) (store : Store) (r1 r2 r3 : Nat) :
    Option Assignment × Option Assignment × Option Assignment :=
  match stage1 ctx store r1 with
  | none => (none, none, none)
  | some a1 =>
    match stage2CheckedOnWorking ctx store a1 r2 with
    | none => (some a1, none, none)
    | some a2 => (some a1, some a2, stage3CheckedOnWorking ctx store a1 a2 r3)

/-- The component state touched by the weight handlers. -/
structure AppState where
  weight1 : ℚ
  weight2 : ℚ
  selectedSlots : Store
  newlySelectedSlots : Store
  pendingSelectionSlots : Store

/-- handleWeight1Change (App.jsx lines 524-532): clamp the requested value to
[0.1, 0.9], set the other weight to 1 minus the clamped value, and reset
selectedSlots and newlySelectedSlots (pendingSelectionSlots is untouched). -/
def handleWeight1Change (st : AppState) (newWeight1 : ℚ) : AppState :=
  let clampedWeight1 := max (1/10) (min (9/10) newWeight1)
  { weight1 := clampedWeight1
    weight2 := 1 - clampedWeight1
    selectedSlots := emptyStore
    newlySelectedSlots := emptyStore
    pendingSelectionSlots := st.pendingSelectionSlots }

/-- handleWeight2Change (App.jsx lines 534-542). -/
def handleWeight2Change (st : AppState) (newWeight2 : ℚ) : AppState :=
  let clampedWeight2 := max (1/10) (min (9/10) newWeight2)
  { weight1 := 1 - clampedWeight2
    weight2 := clampedWeight2
    selectedSlots := emptyStore
    newlySelectedSlots := emptyStore
    pendingSelectionSlots := st.pendingSelectionSlots }

/-- Concrete store showing the stale-state verification of stage 2:
providers 1, 2, 3 and 5 hold every slot; provider 4 holds all slots except
(10,0) and (10,40); provider 6 holds all slots except the six from (10,10)
to (11,0); provider 7 holds all slots except (12,50). -/
def staleCheckStore : Store := fun p s =>
  if p = 1 ∨ p = 2 ∨ p = 3 ∨ p = 5 then true
  else if p = 4 then decide ¬(s = ⟨10, 0⟩ ∨ s = ⟨10, 40⟩)
  else if p = 6 then
    decide ¬(s = ⟨10, 10⟩ ∨ s = ⟨10, 20⟩ ∨ s = ⟨10, 30⟩ ∨ s = ⟨10, 40⟩ ∨
      s = ⟨10, 50⟩ ∨ s = ⟨11, 0⟩)
  else if p = 7 then decide ¬(s = ⟨12, 50⟩)
  else false

/-- The stage-1 pool: the earliest max(1, ceil(len * 20%)) entries of a
resolver output list. -/
def firstBand (l : List Assignment) : List Assignment :=
  l.take (max 1 (ceilFrac l.length (1/5)))

/-- The 20%-50% slice of a resolver output list, sampled by stage 2. -/
def midSlice (l : List Assignment) : List Assignment :=
  (l.drop (ceilFrac l.length (1/5))).take
    (ceilFrac l.length (1/2) - ceilFrac l.length (1/5))

/-- The 50%-70% slice of a resolver output list, sampled by stage 3. -/
def lateSlice (l : List Assignment) : List Assignment :=
  (l.drop (ceilFrac l.length (1/2))).take
    (ceilFrac l.length (7/10) - ceilFrac l.length (1/2))

/-- Store with every provider committed to every slot. -/
def fullStore : Store := fun _ _ => true

/-- Store with providers 1, 2, 4, 5 and 6 holding exactly slot (10,30): the
candidates there are providers 3 and 7, whose truncated scores tie. -/
def tieStore : Store := fun p s =>
  decide ((p = 1 ∨ p = 2 ∨ p = 4 ∨ p = 5 ∨ p = 6) ∧ s = (⟨10, 30⟩ : Slot))

/-- The empty store written differently, for the purity witness. -/
def emptyStoreAlt : Store := fun p s => decide (p + s.hour + 1 = 0)

section ConcreteEvaluation

/- The core rational operations are irreducible by default, which blocks
kernel evaluation of concrete instances; they are restored to semireducible
for the scope of this development. -/
attribute [local semireducible] Rat.mul Rat.inv Rat.add Rat.sub

example : timeSlots.length = 18 := by decide

example : resolve sampleCtx ⟨10, 0⟩ emptyStore = some 4 := by decide

/-! Basic lemmas about the stable sort. -/

theorem perm_insertBy (le : α → α → Bool) (a : α) (l : List α) :
    (insertBy le a l).Perm (a :: l) := by
  induction l with
  | nil => exact List.Perm.refl _
  | cons b bs ih =>
    simp only [insertBy]
    split
    · exact List.Perm.refl _
    · exact (List.Perm.cons b ih).trans (List.Perm.swap a b bs)

theorem perm_sortBy (le : α → α → Bool) (l : List α) :
    (sortBy le l).Perm l := by
  induction l with
  | nil => exact List.Perm.refl _
  | cons a as ih =>
    simp only [sortBy, List.foldr] at *
    exact (perm_insertBy le a _).trans (List.Perm.cons a ih)

theorem mem_sortBy (le : α → α → Bool) (a : α) (l : List α) :
    a ∈ sortBy le l ↔ a ∈ l :=
  (perm_sortBy le l).mem_iff

theorem length_sortBy (le : α → α → Bool) (l : List α) :
    (sortBy le l).length = l.length :=
  (perm_sortBy le l).length_eq

theorem pairwise_insertBy (le : α → α → Bool)
    (htot : ∀ a b, le a b = false → le b a = true)
    (htrans : ∀ a b c, le a b = true → le b c = true → le a c = true)
    (a : α) (l : List α) (hl : l.Pairwise (fun x y => le x y = true)) :
    (insertBy le a l).Pairwise (fun x y => le x y = true) := by
  induction l with
  | nil => simp [insertBy]
  | cons b bs ih =>
    rw [List.pairwise_cons] at hl
    obtain ⟨hb, hbs⟩ := hl
    simp only [insertBy]
    split
    · rename_i hab
      refine List.Pairwise.cons ?_ (List.Pairwise.cons hb hbs)
      intro x hx
      rcases List.mem_cons.mp hx with rfl | hx
      · exact hab
      · exact htrans a b x hab (hb x hx)
    · rename_i hab
      refine List.Pairwise.cons ?_ (ih hbs)
      intro x hx
      rcases List.mem_cons.mp ((perm_insertBy le a bs).mem_iff.mp hx) with rfl | h
      · exact htot x b (Bool.eq_false_iff.mpr hab)
      · exact hb x h

theorem pairwise_sortBy (le : α → α → Bool)
    (htot : ∀ a b, le a b = false → le b a = true)
    (htrans : ∀ a b c, le a b = true → le b c = true → le a c = true)
    (l : List α) :
    (sortBy le l).Pairwise (fun x y => le x y = true) := by
  induction l with
  | nil => simp [sortBy]
  | cons a as ih =>
    simp only [sortBy, List.foldr] at *
    exact pairwise_insertBy le htot htrans a _ ih

/-! Lemmas about the left fold computing Math.max over a list. -/

theorem foldl_max_init_le [LinearOrder α] (f : β → α) (init : α) (l : List β) :
    init ≤ l.foldl (fun m q => max m (f q)) init := by
  induction l generalizing init with
  | nil => exact le_refl _
  | cons b bs ih => exact le_trans (le_max_left _ _) (ih _)

theorem foldl_max_le_of_mem [LinearOrder α] (f : β → α) (l : List β)
    (b : β) (hb : b ∈ l) :
    ∀ init, f b ≤ l.foldl (fun m q => max m (f q)) init := by
  induction l with
  | nil => cases hb
  | cons c cs ih =>
    intro init
    rcases List.mem_cons.mp hb with rfl | hb
    · exact le_trans (le_max_right _ _) (foldl_max_init_le f _ cs)
    · exact ih hb _

theorem foldl_max_eq_init_or_mem [LinearOrder α] (f : β → α) (init : α)
    (l : List β) :
    l.foldl (fun m q => max m (f q)) init = init ∨
      ∃ b ∈ l, l.foldl (fun m q => max m (f q)) init = f b := by
  induction l generalizing init with
  | nil => exact Or.inl rfl
  | cons c cs ih =>
    rcases ih (max init (f c)) with h | ⟨b, hb, h⟩
    · rcases max_choice init (f c) with hm | hm
      · exact Or.inl (by simpa [hm] using h)
      · exact Or.inr ⟨c, List.mem_cons_self c cs, by simpa [hm] using h⟩
    · exact Or.inr ⟨b, List.mem_cons_of_mem c hb, h⟩

/-! Lemmas about the maximal truncated score and the tied candidates. -/

theorem le_maxTrunc (ctx : Ctx) (slot : Slot) (store : Store)
    (q : Nat × WithTop ℚ) (hq : q ∈ scoredCandidates ctx slot store) :
    q.2 ≤ maxTrunc ctx slot store := by
  unfold maxTrunc
  cases hs : scoredCandidates ctx slot store with
  | nil => rw [hs] at hq; cases hq
  | cons s ss =>
    rw [hs] at hq
    rcases List.mem_cons.mp hq with rfl | hq
    · exact foldl_max_init_le Prod.snd _ ss
    · exact foldl_max_le_of_mem Prod.snd ss q hq s.2

theorem maxTrunc_attained (ctx : Ctx) (slot : Slot) (store : Store)
    (s : Nat × WithTop ℚ) (ss : List (Nat × WithTop ℚ))
    (hs : scoredCandidates ctx slot store = s :: ss) :
    ∃ q ∈ s :: ss, q.2 = maxTrunc ctx slot store := by
  unfold maxTrunc
  rw [hs]
  rcases foldl_max_eq_init_or_mem Prod.snd s.2 ss with h | ⟨b, hb, h⟩
  · exact ⟨s, List.mem_cons_self s ss, h.symm⟩
  · exact ⟨b, List.mem_cons_of_mem s hb, h.symm⟩

theorem mem_tiedCandidates (ctx : Ctx) (slot : Slot) (store : Store)
    (q : Nat × WithTop ℚ) :
    q ∈ tiedCandidates ctx slot store ↔
      q ∈ scoredCandidates ctx slot store ∧ q.2 = maxTrunc ctx slot store := by
  unfold tiedCandidates
  rw [List.mem_filter]
  simp only [decide_eq_true_eq]

theorem tiedCandidates_ne_nil (ctx : Ctx) (slot : Slot) (store : Store)
    (s : Nat × WithTop ℚ) (ss : List (Nat × WithTop ℚ))
    (hs : scoredCandidates ctx slot store = s :: ss) :
    tiedCandidates ctx slot store ≠ [] := by
  obtain ⟨q, hq, hmax⟩ := maxTrunc_attained ctx slot store s ss hs
  have : q ∈ tiedCandidates ctx slot store :=
    (mem_tiedCandidates ctx slot store q).mpr ⟨hs ▸ hq, hmax⟩
  exact List.ne_nil_of_mem this

/-! Lemmas about the resolver. -/

theorem availableProviders_eq_nil_iff (ctx : Ctx) (slot : Slot) (store : Store) :
    availableProviders ctx slot store = [] ↔
      ∀ p ∈ ctx.providers, store p.id slot = true := by
  unfold availableProviders
  rw [List.filter_eq_nil_iff]
  constructor
  · intro h p hp
    have := h p ((mem_sortBy _ p ctx.providers).mpr hp)
    simpa using this
  · intro h p hp
    have := h p ((mem_sortBy _ p ctx.providers).mp hp)
    simp [this]

theorem resolve_mem_tiedCandidates (ctx : Ctx) (slot : Slot) (store : Store)
    (h : availableProviders ctx slot store ≠ []) :
    ∃ t ∈ tiedCandidates ctx slot store, resolve ctx slot store = some t.1 := by
  have hscored : scoredCandidates ctx slot store ≠ [] := by
    unfold scoredCandidates
    simpa using h
  obtain ⟨s, ss, hs⟩ := List.exists_cons_of_ne_nil hscored
  unfold resolve
  rw [if_neg (by simpa [List.isEmpty_iff] using h)]
  cases ht : tiedCandidates ctx slot store with
  | nil => exact absurd ht (tiedCandidates_ne_nil ctx slot store s ss hs)
  | cons t ts =>
    cases ts with
    | nil => exact ⟨t, List.mem_cons_self t [], rfl⟩
    | cons t' ts' =>
      have hlen : 0 < (sortById (t :: t' :: ts')).length := by
        simp only [sortById, length_sortBy]
        simp
      have hidx : slotHash slot % (sortById (t :: t' :: ts')).length <
          (sortById (t :: t' :: ts')).length := Nat.mod_lt _ hlen
      refine ⟨(sortById (t :: t' :: ts')).get
        ⟨slotHash slot % (sortById (t :: t' :: ts')).length, hidx⟩, ?_, ?_⟩
      · exact (mem_sortBy _ _ _).mp (List.get_mem _ _ _)
      · show Option.map (fun x => x.1)
            ((sortById (t :: t' :: ts')).get?
              (slotHash slot % (sortById (t :: t' :: ts')).length)) = _
        rw [List.get?_eq_get hidx]
        rfl

theorem resolve_eq_none_iff (ctx : Ctx) (slot : Slot) (store : Store) :
    resolve ctx slot store = none ↔ availableProviders ctx slot store = [] := by
  constructor
  · intro h
    by_contra hne
    obtain ⟨t, _, hr⟩ := resolve_mem_tiedCandidates ctx slot store hne
    rw [h] at hr
    cases hr
  · intro h
    unfold resolve
    rw [if_pos (by simp [h])]

/-! Lemmas about the batched resolver output. -/

theorem resolve_of_mem_resolveAll (ctx : Ctx) (store : Store) (a : Assignment)
    (h : a ∈ resolveAll ctx store) :
    resolve ctx a.slotId store = some a.providerId := by
  unfold resolveAll at h
  rw [mem_sortBy, List.mem_filterMap] at h
  obtain ⟨p, _, hmap⟩ := h
  cases hr : resolve ctx p.2 store with
  | none => rw [hr] at hmap; cases hmap
  | some pid =>
    rw [hr] at hmap
    obtain rfl := Option.some.inj hmap
    exact hr

/-! Lemmas about the sampling helpers. -/

theorem selectFirst_eq_some (ctx : Ctx) (vs : Store) (hs : List Assignment)
    (pct : ℚ) (r : Nat) (a : Assignment)
    (h : selectRandomSlotFromFirstPercent ctx vs hs pct r = some a) :
    a ∈ hs.take (max 1 (ceilFrac hs.length pct)) ∧
      resolve ctx a.slotId vs = some a.providerId := by
  simp only [selectRandomSlotFromFirstPercent] at h
  split at h
  · cases h
  · split at h
    · cases h
    · split at h
      · cases h
      · rename_i b hget
        split at h
        · rename_i hres
          obtain rfl := Option.some.inj h
          exact ⟨List.get?_mem hget, hres⟩
        · cases h

theorem selectRange_eq_some (ctx : Ctx) (vs : Store) (hs : List Assignment)
    (qs qe : ℚ) (r : Nat) (x : Assignment)
    (h : selectRandomSlotFromRange ctx vs hs qs qe r = some x) :
    x ∈ (hs.drop (ceilFrac hs.length qs)).take
        (ceilFrac hs.length qe - ceilFrac hs.length qs) ∧
      resolve ctx x.slotId vs = some x.providerId := by
  simp only [selectRandomSlotFromRange] at h
  split at h
  · cases h
  · split at h
    · cases h
    · split at h
      · cases h
      · split at h
        · cases h
        · rename_i b hget
          split at h
          · rename_i hres
            obtain rfl := Option.some.inj h
            exact ⟨List.get?_mem hget, hres⟩
          · cases h

theorem selectRange_eq_none_of_slice_nil (ctx : Ctx) (vs : Store)
    (hs : List Assignment) (qs qe : ℚ) (r : Nat)
    (h : (hs.drop (ceilFrac hs.length qs)).take
        (ceilFrac hs.length qe - ceilFrac hs.length qs) = []) :
    selectRandomSlotFromRange ctx vs hs qs qe r = none := by
  simp only [selectRandomSlotFromRange]
  split
  · rfl
  · split
    · rfl
    · rw [if_pos (by simp [h])]

/-! Equations of the iteration in terms of its stages. -/

theorem runIteration_eq_of_stage1_none (ctx : Ctx) (store : Store)
    (r1 r2 r3 : Nat) (h : stage1 ctx store r1 = none) :
    runSimulationIteration ctx store r1 r2 r3 = (none, none, none) := by
  unfold runSimulationIteration
  rw [h]

theorem runIteration_eq_of_stage2_none (ctx : Ctx) (store : Store)
    (r1 r2 r3 : Nat) (a1 : Assignment) (h1 : stage1 ctx store r1 = some a1)
    (h2 : stage2 ctx store a1 r2 = none) :
    runSimulationIteration ctx store r1 r2 r3 = (some a1, none, none) := by
  unfold runSimulationIteration
  rw [h1]
  show (match stage2 ctx store a1 r2 with
    | none => (some a1, none, none)
    | some a2 => (some a1, some a2, stage3 ctx store a1 a2 r3)) =
      (some a1, none, none)
  rw [h2]

theorem runIteration_eq_of_stage2_some (ctx : Ctx) (store : Store)
    (r1 r2 r3 : Nat) (a1 a2 : Assignment) (h1 : stage1 ctx store r1 = some a1)
    (h2 : stage2 ctx store a1 r2 = some a2) :
    runSimulationIteration ctx store r1 r2 r3 =
      (some a1, some a2, stage3 ctx store a1 a2 r3) := by
  unfold runSimulationIteration
  rw [h1]
  show (match stage2 ctx store a1 r2 with
    | none => (some a1, none, none)
    | some a2 => (some a1, some a2, stage3 ctx store a1 a2 r3)) =
      (some a1, some a2, stage3 ctx store a1 a2 r3)
  rw [h2]

/-! Index and rank-fraction lemmas for slices. -/

theorem mem_slice_getElem (l : List Assignment) (s k : Nat) (x : Assignment)
    (h : x ∈ (l.drop s).take k) :
    ∃ i, s ≤ i ∧ i < s + k ∧ ∃ hlt : i < l.length, l.get ⟨i, hlt⟩ = x := by
  obtain ⟨n, hn, hget⟩ := List.mem_iff_getElem.mp h
  have hn' : n < (l.drop s).length :=
    hn.trans_le (by rw [List.length_take]; exact min_le_right _ _)
  have hnk : n < k :=
    hn.trans_le (by rw [List.length_take]; exact min_le_left _ _)
  have hlen : n < l.length - s := by simpa using hn'
  have hsn : s + n < l.length := by omega
  refine ⟨s + n, Nat.le_add_right s n, by omega, hsn, ?_⟩
  have h1 : ((l.drop s).take k)[n] = (l.drop s)[n] := List.getElem_take _
  have h2 : (l.drop s)[n] = l[s + n] := List.getElem_drop _
  rw [h1, h2] at hget
  simpa [List.get_eq_getElem] using hget

theorem rank_ge (n i : Nat) (q : ℚ) (h : ceilFrac n q ≤ i) (hn : 0 < n) :
    q ≤ (i : ℚ) / (n : ℚ) := by
  unfold ceilFrac at h
  have h1 : (⌈(n : ℚ) * q⌉ : ℤ) ≤ (i : ℤ) := by exact_mod_cast Int.toNat_le.mp h
  have h2 : (n : ℚ) * q ≤ (i : ℚ) := by exact_mod_cast Int.ceil_le.mp h1
  rw [le_div_iff₀ (by positivity), mul_comm]
  exact h2

theorem rank_lt (n i : Nat) (q : ℚ) (h : i < ceilFrac n q) (hn : 0 < n) :
    (i : ℚ) / (n : ℚ) < q := by
  unfold ceilFrac at h
  have h1 : (i : ℤ) < ⌈(n : ℚ) * q⌉ := Int.lt_toNat.mp h
  have h2 : (i : ℚ) < (n : ℚ) * q := by exact_mod_cast Int.lt_ceil.mp h1
  rw [div_lt_iff₀ (by positivity), mul_comm]
  exact h2

theorem midSlice_rank (L : List Assignment) (x : Assignment)
    (h : x ∈ midSlice L) :
    ∃ i, ∃ hlt : i < L.length, L.get ⟨i, hlt⟩ = x ∧
      (1/5 : ℚ) ≤ (i : ℚ) / (L.length : ℚ) ∧
      (i : ℚ) / (L.length : ℚ) < 1/2 := by
  unfold midSlice at h
  obtain ⟨i, hs, hse, hlt, hget⟩ := mem_slice_getElem L _ _ x h
  have hlen : 0 < L.length := by omega
  have he : i < ceilFrac L.length (1/2) := by omega
  exact ⟨i, hlt, hget, rank_ge _ _ _ hs hlen, rank_lt _ _ _ he hlen⟩

theorem lateSlice_rank (L : List Assignment) (x : Assignment)
    (h : x ∈ lateSlice L) :
    ∃ i, ∃ hlt : i < L.length, L.get ⟨i, hlt⟩ = x ∧
      (1/2 : ℚ) ≤ (i : ℚ) / (L.length : ℚ) ∧
      (i : ℚ) / (L.length : ℚ) < 7/10 := by
  unfold lateSlice at h
  obtain ⟨i, hs, hse, hlt, hget⟩ := mem_slice_getElem L _ _ x h
  have hlen : 0 < L.length := by omega
  have he : i < ceilFrac L.length (7/10) := by omega
  exact ⟨i, hlt, hget, rank_ge _ _ _ hs hlen, rank_lt _ _ _ he hlen⟩

theorem midSlice_subset (L : List Assignment) : midSlice L ⊆ L :=
  fun _ hx => List.drop_subset _ _ (List.take_subset _ _ hx)

theorem lateSlice_subset (L : List Assignment) : lateSlice L ⊆ L :=
  fun _ hx => List.drop_subset _ _ (List.take_subset _ _ hx)

/-! Bridging lemmas between the iteration triple and the stages. -/

theorem stage1_some_of_fst (ctx : Ctx) (store : Store) (r1 r2 r3 : Nat)
    (a1 : Assignment)
    (h : (runSimulationIteration ctx store r1 r2 r3).1 = some a1) :
    stage1 ctx store r1 = some a1 := by
  cases hs1 : stage1 ctx store r1 with
  | none => rw [runIteration_eq_of_stage1_none ctx store r1 r2 r3 hs1] at h; cases h
  | some b1 =>
    cases hs2 : stage2 ctx store b1 r2 with
    | none =>
      rw [runIteration_eq_of_stage2_none ctx store r1 r2 r3 b1 hs1 hs2] at h
      exact h
    | some b2 =>
      rw [runIteration_eq_of_stage2_some ctx store r1 r2 r3 b1 b2 hs1 hs2] at h
      exact h

theorem stage2_some_of_snd (ctx : Ctx) (store : Store) (r1 r2 r3 : Nat)
    (a1 a2 : Assignment)
    (h1 : (runSimulationIteration ctx store r1 r2 r3).1 = some a1)
    (h2 : (runSimulationIteration ctx store r1 r2 r3).2.1 = some a2) :
    stage2 ctx store a1 r2 = some a2 := by
  have hs1 := stage1_some_of_fst ctx store r1 r2 r3 a1 h1
  cases hs2 : stage2 ctx store a1 r2 with
  | none =>
    rw [runIteration_eq_of_stage2_none ctx store r1 r2 r3 a1 hs1 hs2] at h2
    cases h2
  | some b2 =>
    rw [runIteration_eq_of_stage2_some ctx store r1 r2 r3 a1 b2 hs1 hs2] at h2
    exact h2

theorem thd_eq_stage3_of_snd_some (ctx : Ctx) (store : Store) (r1 r2 r3 : Nat)
    (a1 a2 : Assignment)
    (h1 : (runSimulationIteration ctx store r1 r2 r3).1 = some a1)
    (h2 : (runSimulationIteration ctx store r1 r2 r3).2.1 = some a2) :
    (runSimulationIteration ctx store r1 r2 r3).2.2 =
      stage3 ctx store a1 a2 r3 := by
  have hs1 := stage1_some_of_fst ctx store r1 r2 r3 a1 h1
  have hs2 := stage2_some_of_snd ctx store r1 r2 r3 a1 a2 h1 h2
  rw [runIteration_eq_of_stage2_some ctx store r1 r2 r3 a1 a2 hs1 hs2]

theorem thd_none_of_snd_none (ctx : Ctx) (store : Store) (r1 r2 r3 : Nat)
    (h : (runSimulationIteration ctx store r1 r2 r3).2.1 = none) :
    (runSimulationIteration ctx store r1 r2 r3).2.2 = none := by
  cases hs1 : stage1 ctx store r1 with
  | none => rw [runIteration_eq_of_stage1_none ctx store r1 r2 r3 hs1]
  | some a1 =>
    cases hs2 : stage2 ctx store a1 r2 with
    | none => rw [runIteration_eq_of_stage2_none ctx store r1 r2 r3 a1 hs1 hs2]
    | some a2 =>
      rw [runIteration_eq_of_stage2_some ctx store r1 r2 r3 a1 a2 hs1 hs2] at h
      cases h

/-! Stage-level facts. -/

theorem stage1_mem_firstBand (ctx : Ctx) (store : Store) (r1 : Nat)
    (a1 : Assignment) (h : stage1 ctx store r1 = some a1) :
    a1 ∈ firstBand (resolveAll ctx store) ∧
      resolve ctx a1.slotId store = some a1.providerId := by
  unfold stage1 at h
  simp only [] at h
  split at h
  · cases h
  · obtain ⟨hmem, hres⟩ := selectFirst_eq_some _ _ _ _ _ _ h
    exact ⟨hmem, hres⟩

theorem stage2_some_elim (ctx : Ctx) (store : Store) (a1 : Assignment)
    (r2 : Nat) (a2 : Assignment) (h : stage2 ctx store a1 r2 = some a2) :
    a2 ∈ midSlice (resolveAll ctx (commitPair store a1.providerId a1.slotId)) ∧
      resolve ctx a2.slotId store = some a2.providerId := by
  unfold stage2 at h
  simp only [] at h
  split at h
  · cases h
  · obtain ⟨hmem, hres⟩ := selectRange_eq_some _ _ _ _ _ _ _ h
    exact ⟨hmem, hres⟩

theorem stage2_none_of_slice_nil (ctx : Ctx) (store : Store) (a1 : Assignment)
    (r2 : Nat)
    (h : midSlice (resolveAll ctx (commitPair store a1.providerId a1.slotId)) = []) :
    stage2 ctx store a1 r2 = none := by
  unfold stage2
  simp only []
  split
  · rfl
  · exact selectRange_eq_none_of_slice_nil _ _ _ _ _ _ h

theorem stage3_some_elim (ctx : Ctx) (store : Store) (a1 a2 : Assignment)
    (r3 : Nat) (a3 : Assignment) (h : stage3 ctx store a1 a2 r3 = some a3) :
    a3 ∈ lateSlice (resolveAll ctx
        (commitPair (commitPair store a1.providerId a1.slotId)
          a2.providerId a2.slotId)) ∧
      resolve ctx a3.slotId store = some a3.providerId := by
  unfold stage3 at h
  simp only [] at h
  split at h
  · cases h
  · obtain ⟨hmem, hres⟩ := selectRange_eq_some _ _ _ _ _ _ _ h
    exact ⟨hmem, hres⟩

/-! The resolver only returns ids of available providers. -/

theorem resolve_mem_available (ctx : Ctx) (slot : Slot) (store : Store)
    (pid : Nat) (h : resolve ctx slot store = some pid) :
    ∃ p ∈ availableProviders ctx slot store, p.id = pid := by
  have hne : availableProviders ctx slot store ≠ [] := by
    intro hnil
    rw [(resolve_eq_none_iff ctx slot store).mpr hnil] at h
    cases h
  obtain ⟨t, htied, hr⟩ := resolve_mem_tiedCandidates ctx slot store hne
  rw [h] at hr
  obtain rfl : pid = t.1 := Option.some.inj hr
  have hscored := ((mem_tiedCandidates ctx slot store t).mp htied).1
  unfold scoredCandidates at hscored
  rw [List.mem_map] at hscored
  obtain ⟨p, hp, hpt⟩ := hscored
  exact ⟨p, hp, by rw [← hpt]⟩

/-! Claim theorems. -/

/-- C1 counterexample: the claim that a slot with any committed provider
resolves to none is false.  In staleCheckStore provider 1 (a member of the
provider list) holds slot (10,0), yet the resolver returns provider 4 for
that slot rather than none. -/
theorem slot_not_consumed_cex :
    (⟨1, "NP Smith", 3⟩ : Provider) ∈ sampleCtx.providers ∧
    staleCheckStore 1 ⟨10, 0⟩ = true ∧
    resolve sampleCtx ⟨10, 0⟩ staleCheckStore = some 4 := by decide

/-- C1 amended: the resolver excludes exactly the providers already committed
to the queried slot.  It returns none precisely when every provider is
committed to that slot, and it never returns a provider that already holds
the slot; a slot committed by one provider can still be resolved to another
provider. -/
theorem resolve_none_iff_all_committed (ctx : Ctx) (slot : Slot)
    (store : Store) :
    (resolve ctx slot store = none ↔
      ∀ p ∈ ctx.providers, store p.id slot = true) ∧
    (∀ pid, store pid slot = true → resolve ctx slot store ≠ some pid) := by
  constructor
  · rw [resolve_eq_none_iff, availableProviders_eq_nil_iff]
  · intro pid hcommitted hres
    obtain ⟨p, hp, rfl⟩ := resolve_mem_available ctx slot store pid hres
    have := List.of_mem_filter hp
    simp only [Bool.not_eq_true'] at this
    rw [hcommitted] at this
    cases this

/-- C2: when at least one eligible candidate remains, the resolver returns a
candidate whose truncated score (Math.floor (score * 100) / 100, truncation
toward zero for these non-negative scores, not nearest-rounding) equals the
maximum truncated score over all candidates. -/
theorem resolve_attains_max_truncated (ctx : Ctx) (slot : Slot) (store : Store)
    (h : availableProviders ctx slot store ≠ []) :
    ∃ p ∈ availableProviders ctx slot store,
      resolve ctx slot store = some p.id ∧
      ∀ q ∈ availableProviders ctx slot store,
        truncScore ctx store q ≤ truncScore ctx store p := by
  obtain ⟨t, htied, hr⟩ := resolve_mem_tiedCandidates ctx slot store h
  obtain ⟨hscored, hmax⟩ := (mem_tiedCandidates ctx slot store t).mp htied
  unfold scoredCandidates at hscored
  rw [List.mem_map] at hscored
  obtain ⟨p, hp, hpt⟩ := hscored
  have hid : t.1 = p.id := by rw [← hpt]
  have hsc : truncScore ctx store p = t.2 := by rw [← hpt]
  refine ⟨p, hp, by rw [hr, hid], ?_⟩
  intro q hq
  have hq' : (q.id, truncScore ctx store q) ∈ scoredCandidates ctx slot store :=
    List.mem_map_of_mem _ hq
  have hle := le_maxTrunc ctx slot store _ hq'
  rw [hsc, hmax]
  exact hle

/-- C2 witness: on the empty store the slot (10,0) has all seven providers as
candidates and the theorem applies. -/
theorem resolve_attains_max_truncated_witness :
    availableProviders sampleCtx ⟨10, 0⟩ emptyStore ≠ [] ∧
    ∃ p ∈ availableProviders sampleCtx ⟨10, 0⟩ emptyStore,
      resolve sampleCtx ⟨10, 0⟩ emptyStore = some p.id ∧
      ∀ q ∈ availableProviders sampleCtx ⟨10, 0⟩ emptyStore,
        truncScore sampleCtx emptyStore q ≤ truncScore sampleCtx emptyStore p :=
  ⟨by decide,
   resolve_attains_max_truncated sampleCtx ⟨10, 0⟩ emptyStore (by decide)⟩

/-- C3: with two or more candidates tied at the maximal truncated score, the
resolver sorts the tied candidates ascending by provider id (a genuine sort:
a permutation that is pairwise ordered), computes the hash as the sum of the
two numeric components of the slot identifier, and returns the entry at index
hash mod (number of tied candidates) of the sorted list. -/
theorem resolve_tiebreak_hash_indexed (ctx : Ctx) (slot : Slot) (store : Store)
    (t t' : Nat × WithTop ℚ) (ts : List (Nat × WithTop ℚ))
    (h : tiedCandidates ctx slot store = t :: t' :: ts) :
    slotHash slot = slot.hour + slot.minute ∧
    (sortById (t :: t' :: ts)).Perm (t :: t' :: ts) ∧
    (sortById (t :: t' :: ts)).Pairwise (fun a b => a.1 ≤ b.1) ∧
    resolve ctx slot store =
      ((sortById (t :: t' :: ts)).get?
        (slotHash slot % (t :: t' :: ts).length)).map (·.1) := by
  refine ⟨rfl, perm_sortBy _ _, ?_, ?_⟩
  · have hp := pairwise_sortBy (fun a b : Nat × WithTop ℚ => decide (a.1 ≤ b.1))
      (fun a b hab => by
        rw [decide_eq_true_eq]
        have := of_decide_eq_false hab
        omega)
      (fun a b c hab hbc => by
        rw [decide_eq_true_eq]
        exact le_trans (of_decide_eq_true hab) (of_decide_eq_true hbc))
      (t :: t' :: ts)
    exact hp.imp fun hab => of_decide_eq_true hab
  · have hav : availableProviders ctx slot store ≠ [] := by
      intro hnil
      have hnil' : tiedCandidates ctx slot store = [] := by
        unfold tiedCandidates scoredCandidates
        rw [hnil]
        rfl
      rw [h] at hnil'
      cases hnil'
    unfold resolve
    rw [if_neg (by simpa [List.isEmpty_iff] using hav), h]
    show ((sortById (t :: t' :: ts)).get?
        (slotHash slot % (sortById (t :: t' :: ts)).length)).map (·.1) = _
    rw [show (sortById (t :: t' :: ts)).length = (t :: t' :: ts).length from
      (perm_sortBy _ _).length_eq]

/-- C3 witness: at slot (10,30) of tieStore the tied candidates are providers
3 and 7; the hash is 10 + 30 = 40, 40 mod 2 = 0, and provider 3 is returned,
matching the claim's example. -/
theorem resolve_tiebreak_hash_indexed_witness :
    resolve sampleCtx ⟨10, 30⟩ tieStore = some 3 := by
  have h := resolve_tiebreak_hash_indexed sampleCtx ⟨10, 30⟩ tieStore
    (3, ((4/5 : ℚ) : WithTop ℚ)) (7, ((4/5 : ℚ) : WithTop ℚ)) [] (by decide)
  rw [h.2.2.2]
  decide

/-- C6: setting either weight clamps the requested value to [0.1, 0.9], sets
the other weight to exactly 1 minus the clamped value so that the weights sum
to 1 (in particular w1 = 0.3 yields w2 = 0.7), and clears the commitment
store. -/
theorem weight_change_clamps_sums_clears (st : AppState) (v : ℚ) :
    (handleWeight1Change st v).weight1 = max (1/10) (min (9/10) v) ∧
    (1/10 : ℚ) ≤ (handleWeight1Change st v).weight1 ∧
    (handleWeight1Change st v).weight1 ≤ 9/10 ∧
    (handleWeight1Change st v).weight2 = 1 - max (1/10) (min (9/10) v) ∧
    (handleWeight1Change st v).weight1 + (handleWeight1Change st v).weight2 = 1 ∧
    (handleWeight1Change st v).selectedSlots = emptyStore ∧
    (handleWeight2Change st v).weight2 = max (1/10) (min (9/10) v) ∧
    (handleWeight2Change st v).weight1 = 1 - max (1/10) (min (9/10) v) ∧
    (handleWeight2Change st v).weight1 + (handleWeight2Change st v).weight2 = 1 ∧
    (handleWeight2Change st v).selectedSlots = emptyStore ∧
    (handleWeight1Change st (3/10)).weight2 = 7/10 := by
  refine ⟨rfl, le_max_left _ _, ?_, rfl, ?_, rfl, rfl, rfl, ?_, rfl, ?_⟩
  · exact max_le (by norm_num) (min_le_left _ _)
  · show max (1/10) (min (9/10) v) + (1 - max (1/10) (min (9/10) v)) = 1
    ring
  · show (1 : ℚ) - max (1/10) (min (9/10) v) + max (1/10) (min (9/10) v) = 1
    ring
  · show (1 : ℚ) - max (1/10) (min (9/10) (3/10)) = 7/10
    norm_num

/-- C7: for a fixed capacity and fixed non-negative first weight, the
availability score is non-increasing in the provider's committed-slot count:
a store with at most as many commitments gives at least as large a score. -/
theorem score_monotone_in_commitments (ctx : Ctx) (store store' : Store)
    (pid licenses : Nat) (hw : 0 ≤ ctx.weight1)
    (h : selectedCount store pid ≤ selectedCount store' pid) :
    calculateAvailabilityScore ctx store' pid licenses ≤
      calculateAvailabilityScore ctx store pid licenses := by
  unfold calculateAvailabilityScore
  split
  · exact le_refl _
  · rw [WithTop.coe_le_coe]
    have hc : (selectedCount store pid : ℚ) ≤ (selectedCount store' pid : ℚ) := by
      exact_mod_cast h
    have ht : (0 : ℚ) < (timeSlots.length : ℚ) := by
      rw [show timeSlots.length = 18 from rfl]
      norm_num
    have hnum : (timeSlots.length : ℚ) - (selectedCount store' pid : ℚ) ≤
        (timeSlots.length : ℚ) - (selectedCount store pid : ℚ) := by linarith
    apply add_le_add_right
    apply mul_le_mul_of_nonneg_left _ hw
    rw [div_eq_mul_inv, div_eq_mul_inv]
    exact mul_le_mul_of_nonneg_right hnum (inv_nonneg.mpr ht.le)

/-- C7 witness: provider 4 has 0 commitments in the empty store and 16 in
staleCheckStore, and its capacity-1 score in the latter is at most its score
in the former. -/
theorem score_monotone_in_commitments_witness :
    (0 : ℚ) ≤ sampleCtx.weight1 ∧
    selectedCount emptyStore 4 ≤ selectedCount staleCheckStore 4 ∧
    calculateAvailabilityScore sampleCtx staleCheckStore 4 1 ≤
      calculateAvailabilityScore sampleCtx emptyStore 4 1 :=
  ⟨by decide, by decide,
   score_monotone_in_commitments sampleCtx emptyStore staleCheckStore 4 1
     (by decide) (by decide)⟩

/-- C8: a slot whose candidate set is empty (every provider already committed
to it) resolves to none rather than raising an error. -/
theorem resolve_returns_none_on_empty_candidates (ctx : Ctx) (slot : Slot)
    (store : Store) (h : ∀ p ∈ ctx.providers, store p.id slot = true) :
    resolve ctx slot store = none :=
  (resolve_eq_none_iff ctx slot store).mpr
    ((availableProviders_eq_nil_iff ctx slot store).mpr h)

/-- C8 witness: with every provider committed everywhere, slot (10,0)
resolves to none. -/
theorem resolve_returns_none_on_empty_candidates_witness :
    (∀ p ∈ sampleCtx.providers, fullStore p.id (⟨10, 0⟩ : Slot) = true) ∧
    resolve sampleCtx ⟨10, 0⟩ fullStore = none :=
  ⟨by decide,
   resolve_returns_none_on_empty_candidates sampleCtx ⟨10, 0⟩ fullStore (by decide)⟩

/-- C9: the resolver is a pure, deterministic function of the store contents:
two stores with pointwise identical contents (under the same context, i.e.
the same weights) resolve every slot identically, and no randomness enters
the result. -/
theorem resolve_deterministic_in_store (ctx : Ctx) (slot : Slot)
    (store store' : Store) (h : ∀ p s, store p s = store' p s) :
    resolve ctx slot store = resolve ctx slot store' := by
  have heq : store = store' := funext fun p => funext fun s => h p s
  rw [heq]

/-- C9 witness: the empty store and a syntactically different store with the
same contents resolve identically. -/
theorem resolve_deterministic_in_store_witness :
    (∀ p s, emptyStore p s = emptyStoreAlt p s) ∧
    resolve sampleCtx ⟨10, 0⟩ emptyStore =
      resolve sampleCtx ⟨10, 0⟩ emptyStoreAlt := by
  have h : ∀ (p : Nat) (s : Slot), emptyStore p s = emptyStoreAlt p s := by
    intro p s
    simp [emptyStore, emptyStoreAlt]
  exact ⟨h, resolve_deterministic_in_store sampleCtx ⟨10, 0⟩ emptyStore
    emptyStoreAlt h⟩

/-- C10: changing either weight clears the commitment store and the newly
committed marks but leaves the pending marks untouched. -/
theorem weight_change_preserves_pending (st : AppState) (v : ℚ) :
    (handleWeight1Change st v).pendingSelectionSlots =
      st.pendingSelectionSlots ∧
    (handleWeight1Change st v).selectedSlots = emptyStore ∧
    (handleWeight1Change st v).newlySelectedSlots = emptyStore ∧
    (handleWeight2Change st v).pendingSelectionSlots =
      st.pendingSelectionSlots ∧
    (handleWeight2Change st v).selectedSlots = emptyStore ∧
    (handleWeight2Change st v).newlySelectedSlots = emptyStore :=
  ⟨rfl, rfl, rfl, rfl, rfl, rfl⟩

/-- C4: within one iteration, a stage-1 selection lies in the first
max(1, ceil(0.2 * |H0|)) entries of the current resolver output H0; a
stage-2 selection lies in the slice of H1 (recomputed after hypothetically
committing slot1) whose rank fractions lie in [0.2, 0.5), and an empty band
yields no stage-2 selection; a stage-3 selection lies in the [0.5, 0.7)
band of H2, and stage 3 yields nothing when stage 2 selected nothing. -/
theorem iteration_band_sampling (ctx : Ctx) (store : Store) (r1 r2 r3 : Nat) :
    (∀ a1, (runSimulationIteration ctx store r1 r2 r3).1 = some a1 →
      a1 ∈ firstBand (resolveAll ctx store)) ∧
    (∀ a1 a2, (runSimulationIteration ctx store r1 r2 r3).1 = some a1 →
      (runSimulationIteration ctx store r1 r2 r3).2.1 = some a2 →
      a2 ∈ midSlice (resolveAll ctx (commitPair store a1.providerId a1.slotId)) ∧
      ∃ i, ∃ hlt : i <
          (resolveAll ctx (commitPair store a1.providerId a1.slotId)).length,
        (resolveAll ctx (commitPair store a1.providerId a1.slotId)).get
            ⟨i, hlt⟩ = a2 ∧
        (1/5 : ℚ) ≤ (i : ℚ) /
          ((resolveAll ctx (commitPair store a1.providerId a1.slotId)).length : ℚ) ∧
        (i : ℚ) /
          ((resolveAll ctx (commitPair store a1.providerId a1.slotId)).length : ℚ)
          < 1/2) ∧
    (∀ a1, (runSimulationIteration ctx store r1 r2 r3).1 = some a1 →
      midSlice (resolveAll ctx (commitPair store a1.providerId a1.slotId)) = [] →
      (runSimulationIteration ctx store r1 r2 r3).2.1 = none) ∧
    (∀ a1 a2 a3, (runSimulationIteration ctx store r1 r2 r3).1 = some a1 →
      (runSimulationIteration ctx store r1 r2 r3).2.1 = some a2 →
      (runSimulationIteration ctx store r1 r2 r3).2.2 = some a3 →
      a3 ∈ lateSlice (resolveAll ctx
        (commitPair (commitPair store a1.providerId a1.slotId)
          a2.providerId a2.slotId)) ∧
      ∃ i, ∃ hlt : i < (resolveAll ctx
          (commitPair (commitPair store a1.providerId a1.slotId)
            a2.providerId a2.slotId)).length,
        (resolveAll ctx (commitPair (commitPair store a1.providerId a1.slotId)
            a2.providerId a2.slotId)).get ⟨i, hlt⟩ = a3 ∧
        (1/2 : ℚ) ≤ (i : ℚ) / ((resolveAll ctx
          (commitPair (commitPair store a1.providerId a1.slotId)
            a2.providerId a2.slotId)).length : ℚ) ∧
        (i : ℚ) / ((resolveAll ctx
          (commitPair (commitPair store a1.providerId a1.slotId)
            a2.providerId a2.slotId)).length : ℚ) < 7/10) ∧
    ((runSimulationIteration ctx store r1 r2 r3).2.1 = none →
      (runSimulationIteration ctx store r1 r2 r3).2.2 = none) := by
  refine ⟨?_, ?_, ?_, ?_, ?_⟩
  · intro a1 h1
    exact (stage1_mem_firstBand ctx store r1 a1
      (stage1_some_of_fst ctx store r1 r2 r3 a1 h1)).1
  · intro a1 a2 h1 h2
    have hs2 := stage2_some_of_snd ctx store r1 r2 r3 a1 a2 h1 h2
    have hmem := (stage2_some_elim ctx store a1 r2 a2 hs2).1
    exact ⟨hmem, midSlice_rank _ _ hmem⟩
  · intro a1 h1 hnil
    have hs1 := stage1_some_of_fst ctx store r1 r2 r3 a1 h1
    have hs2 := stage2_none_of_slice_nil ctx store a1 r2 hnil
    rw [runIteration_eq_of_stage2_none ctx store r1 r2 r3 a1 hs1 hs2]
  · intro a1 a2 a3 h1 h2 h3
    have hth := thd_eq_stage3_of_snd_some ctx store r1 r2 r3 a1 a2 h1 h2
    rw [hth] at h3
    have hmem := (stage3_some_elim ctx store a1 a2 r3 a3 h3).1
    exact ⟨hmem, lateSlice_rank _ _ hmem⟩
  · exact thd_none_of_snd_none ctx store r1 r2 r3

/-- C4 witness: on the empty store with draws (0,0,0), stage 1 selects
(slot (10,0), provider 4) and stage 2 selects (slot (10,40), provider 4),
which the theorem places in the [0.2, 0.5) rank band of H1. -/
theorem iteration_band_sampling_witness :
    ∃ i, ∃ hlt : i <
        (resolveAll sampleCtx (commitPair emptyStore 4 ⟨10, 0⟩)).length,
      (resolveAll sampleCtx (commitPair emptyStore 4 ⟨10, 0⟩)).get ⟨i, hlt⟩ =
        ⟨⟨10, 40⟩, 4, 4⟩ ∧
      (1/5 : ℚ) ≤ (i : ℚ) /
        ((resolveAll sampleCtx (commitPair emptyStore 4 ⟨10, 0⟩)).length : ℚ) ∧
      (i : ℚ) /
        ((resolveAll sampleCtx (commitPair emptyStore 4 ⟨10, 0⟩)).length : ℚ)
        < 1/2 := by
  have h := (iteration_band_sampling sampleCtx emptyStore 0 0 0).2.1
    ⟨⟨10, 0⟩, 4, 0⟩ ⟨⟨10, 40⟩, 4, 4⟩ (by decide) (by decide)
  exact h.2

/-- C5 counterexample: the claim that stage 2's eligibility check of the
sampled entry is computed against the working state is false.  On
staleCheckStore with draws (0,1,0) the code's iteration rejects the stage-2
sample because the check runs against the pre-iteration store, returning no
stage-2 selection, whereas the claim's working-state-checked iteration
selects (slot (10,40), provider 6). -/
theorem stage2_stale_check_cex :
    (runSimulationIteration sampleCtx staleCheckStore 0 1 0).2.1 = none ∧
    (runIterationCheckedOnWorking sampleCtx staleCheckStore 0 1 0).2.1 =
      some ⟨⟨10, 40⟩, 6, 4⟩ ∧
    runSimulationIteration sampleCtx staleCheckStore 0 1 0 ≠
      runIterationCheckedOnWorking sampleCtx staleCheckStore 0 1 0 := by
  decide

/-- C5 amended: stage 2's candidate list H1 is computed against the working
state that includes stage 1's hypothetical commitment (and stage 3's H2
against the state including stages 1 and 2) — any selection is a member of
that working-state resolver output and resolves identically there — but the
eligibility check applied to the sampled entry is computed against the
pre-iteration store, so every selection also resolves identically in the
stale pre-iteration state. -/
theorem stage_lists_working_checks_stale (ctx : Ctx) (store : Store)
    (r1 r2 r3 : Nat) :
    (∀ a1 a2, (runSimulationIteration ctx store r1 r2 r3).1 = some a1 →
      (runSimulationIteration ctx store r1 r2 r3).2.1 = some a2 →
      a2 ∈ resolveAll ctx (commitPair store a1.providerId a1.slotId) ∧
      resolve ctx a2.slotId (commitPair store a1.providerId a1.slotId) =
        some a2.providerId ∧
      resolve ctx a2.slotId store = some a2.providerId) ∧
    (∀ a1 a2 a3, (runSimulationIteration ctx store r1 r2 r3).1 = some a1 →
      (runSimulationIteration ctx store r1 r2 r3).2.1 = some a2 →
      (runSimulationIteration ctx store r1 r2 r3).2.2 = some a3 →
      a3 ∈ resolveAll ctx (commitPair (commitPair store a1.providerId a1.slotId)
        a2.providerId a2.slotId) ∧
      resolve ctx a3.slotId (commitPair (commitPair store a1.providerId a1.slotId)
        a2.providerId a2.slotId) = some a3.providerId ∧
      resolve ctx a3.slotId store = some a3.providerId) := by
  constructor
  · intro a1 a2 h1 h2
    have hs2 := stage2_some_of_snd ctx store r1 r2 r3 a1 a2 h1 h2
    obtain ⟨hmem, hstale⟩ := stage2_some_elim ctx store a1 r2 a2 hs2
    have hmem' := midSlice_subset _ hmem
    exact ⟨hmem', resolve_of_mem_resolveAll _ _ _ hmem', hstale⟩
  · intro a1 a2 a3 h1 h2 h3
    have hth := thd_eq_stage3_of_snd_some ctx store r1 r2 r3 a1 a2 h1 h2
    rw [hth] at h3
    obtain ⟨hmem, hstale⟩ := stage3_some_elim ctx store a1 a2 r3 a3 h3
    have hmem' := lateSlice_subset _ hmem
    exact ⟨hmem', resolve_of_mem_resolveAll _ _ _ hmem', hstale⟩

/-- C5 amended witness: on the empty store with draws (0,1,0) stage 2 selects
(slot (10,50), provider 4), which resolves to provider 4 both in the working
state holding stage 1's commitment and in the pre-iteration store. -/
theorem stage_lists_working_checks_stale_witness :
    resolve sampleCtx (⟨10, 50⟩ : Slot) (commitPair emptyStore 4 ⟨10, 0⟩) =
      some 4 ∧
    resolve sampleCtx (⟨10, 50⟩ : Slot) emptyStore = some 4 := by
  have h := (stage_lists_working_checks_stale sampleCtx emptyStore 0 1 0).1
    ⟨⟨10, 0⟩, 4, 0⟩ ⟨⟨10, 50⟩, 4, 5⟩ (by decide) (by decide)
  exact ⟨h.2.1, h.2.2⟩

end ConcreteEvaluation

end SlotSim
